import Mathlib

/-!
Verification of the platform-agnostic core of `fsnotify` (fsnotify.go):
the `Op`/`Event` data model and the path-resolution helpers
(`recursivePath`, `findDirs`).

Go machine integers are modelled as `Nat` (no operation here can
overflow a `uint32`); Go strings are modelled as Lean `String`
(the strings involved are ASCII, where Go's byte indexing and Lean's
character indexing agree); fallible operations return `Except`.
The Go standard-library path helpers (`path/filepath.Base`, `Dir`,
`Clean`, `Join`) are not part of the repository; they are modelled
below from their documented Unix semantics.  The filesystem itself is
modelled as an explicit tree value, and `filepath.WalkDir` as a
recursive traversal of that tree.
-/

namespace Fsnotify

/-- `type Op uint32` — a bitmask of file operations. -/
abbrev Op := Nat

/-- `Create Op = 1 << iota` — first declared flag. -/
def Create : Op := 1
/-- `Write` — second declared flag. -/
def Write : Op := 2
/-- `Remove` — third declared flag. -/
def Remove : Op := 4
/-- `Rename` — fourth declared flag. -/
def Rename : Op := 8
/-- `Chmod` — fifth declared flag. -/
def Chmod : Op := 16

/-- `func (o Op) Has(h Op) bool { return o&h == h }` -/
def Op.Has (o h : Op) : Bool := o &&& h == h

/-- `func (o Op) String() string` — builds `"|CREATE"`, `"|REMOVE"`,
`"|WRITE"`, `"|RENAME"`, `"|CHMOD"` in that order for the set flags,
returns `"[no events]"` if the builder is empty, else the built string
with its first byte dropped (all tags are ASCII, so byte = char). -/
def opString (o : Op) : String :=
  let b :=
    (if Op.Has o Create then "|CREATE" else "") ++
    (if Op.Has o Remove then "|REMOVE" else "") ++
    (if Op.Has o Write then "|WRITE" else "") ++
    (if Op.Has o Rename then "|RENAME" else "") ++
    (if Op.Has o Chmod then "|CHMOD" else "")
  if b.length = 0 then "[no events]" else String.mk b.data.tail

/-- `type Event struct { Name string; Op Op }` -/
structure Event where
  Name : String
  Op : Fsnotify.Op

/-- Go `%q` escaping of one character (strconv.Quote), modelled for the
printable-ASCII and common control characters that occur in paths. -/
def goQuoteChar (c : Char) : String :=
  if c = '"' then "\\\""
  else if c = '\\' then "\\\\"
  else if c = '\n' then "\\n"
  else if c = '\t' then "\\t"
  else if c = '\r' then "\\r"
  else String.singleton c

/-- Go `%q` — a double-quoted string with escapes. -/
def goQuote (s : String) : String :=
  "\"" ++ String.join (s.data.map goQuoteChar) ++ "\""

/-- Go `%-13s`: the string left-justified in a 13-column field,
padded on the right with spaces (no truncation when longer). -/
def padRight13 (s : String) : String :=
  s ++ String.mk (List.replicate (13 - s.length) ' ')

/-- `func (e Event) String() string { return fmt.Sprintf("%-13s %q", e.Op.String(), e.Name) }` -/
def eventString (e : Event) : String :=
  padRight13 (opString e.Op) ++ " " ++ goQuote e.Name

/-- The spec's reading of the Event format with the operation label
*left-padded* (spaces on the left) to the 13-column field. -/
def leftPadEventString (e : Event) : String :=
  let s := opString e.Op
  (String.mk (List.replicate (13 - s.length) ' ') ++ s) ++ " " ++ goQuote e.Name

/-- The spec's description of `Op.String`: consult the fixed ordered
flag list `{Create, Remove, Write, Rename, Chmod}`, keep the tags of
the set flags, pipe-join them, sentinel when none is set. -/
def renderOrder : List (Op × String) :=
  [(Create, "CREATE"), (Remove, "REMOVE"), (Write, "WRITE"),
   (Rename, "RENAME"), (Chmod, "CHMOD")]

/-- Join a list of strings with a separator between the elements. -/
def joinStrs (sep : String) : List String → String
  | [] => ""
  | [s] => s
  | s :: rest => s ++ sep ++ joinStrs sep rest

/-- Spec-side rendering of an `Op` (see `renderOrder`). -/
def renderSpec (o : Op) : String :=
  let parts := renderOrder.filterMap (fun fs => if Op.Has o fs.1 then some fs.2 else none)
  if parts.isEmpty then "[no events]" else joinStrs "|" parts

/-! ## Model of the Go standard-library path helpers (Unix rules) -/

/-- Split a character list at every `'/'` (the behaviour of
`strings.Split` on `"/"`); `cur` is the reversed current element. -/
def splitSlash : List Char → List Char → List (List Char)
  | [], cur => [cur.reverse]
  | c :: rest, cur =>
    if c = '/' then cur.reverse :: splitSlash rest []
    else splitSlash rest (c :: cur)

/-- Join elements with `'/'` between them. -/
def joinSlash : List (List Char) → List Char
  | [] => []
  | [e] => e
  | e :: rest => e ++ '/' :: joinSlash rest

/-- Kernel of `path/filepath.Clean`: process the slash-separated
elements left to right keeping a reversed stack of output elements;
`""` and `"."` elements are dropped, `".."` pops the previous element
when one is available, is dropped at the root, and is kept when the
path is relative and nothing can be popped. -/
def cleanElems (rooted : Bool) : List (List Char) → List (List Char) → List (List Char)
  | [], stack => stack.reverse
  | e :: rest, stack =>
    if e = [] ∨ e = ['.'] then cleanElems rooted rest stack
    else if e = ['.', '.'] then
      match stack with
      | top :: stack2 =>
        if top = ['.', '.'] then cleanElems rooted rest (['.', '.'] :: top :: stack2)
        else cleanElems rooted rest stack2
      | [] =>
        if rooted then cleanElems rooted rest []
        else cleanElems rooted rest [['.', '.']]
    else cleanElems rooted rest (e :: stack)

/-- `path/filepath.Clean` (Unix): shortest lexically-equivalent path. -/
def filepathClean (p : String) : String :=
  if p = "" then "."
  else
    let cs := p.data
    let rooted : Bool := match cs with | '/' :: _ => true | _ => false
    let elems := cleanElems rooted (splitSlash cs []) []
    let out := (if rooted then ['/'] else []) ++ joinSlash elems
    if out = [] then "." else String.mk out

/-- `path/filepath.Base` (Unix): strip trailing slashes, then the part
after the last slash; `"."` for the empty path, `"/"` when only
slashes remain. -/
def filepathBase (p : String) : String :=
  if p = "" then "."
  else
    let cs := p.data.reverse.dropWhile (· = '/')
    let e := cs.takeWhile (· ≠ '/')
    if e = [] then "/" else String.mk e.reverse

/-- `path/filepath.Dir` (Unix): `Clean` of everything up to and
including the final slash (`Clean("")` = `"."` when there is none). -/
def filepathDir (p : String) : String :=
  filepathClean (String.mk (p.data.reverse.dropWhile (· ≠ '/')).reverse)

/-- `path/filepath.Join` for two components: `Clean` of the
slash-joined non-empty components. -/
def filepathJoin (a b : String) : String :=
  if a = "" then (if b = "" then "" else filepathClean b)
  else filepathClean (String.mk (a.data ++ '/' :: b.data))

/-- `func recursivePath(path string) (string, bool)` —
`if filepath.Base(path) == "..." { return filepath.Dir(path), true }; return path, false`. -/
def recursivePath (path : String) : String × Bool :=
  if filepathBase path = "..." then (filepathDir path, true)
  else (path, false)

/-! ## Model of the filesystem and of `filepath.WalkDir` -/

mutual
/-- A filesystem node as seen by `Lstat`/`ReadDir` (symbolic links are
never followed, so a link only records its target string).  A
directory carries `some code` when reading it fails with the
underlying error identified by `code` (permission denied, vanished
entry, ...), together with the entries that were read. -/
inductive Entry where
  | file : Entry
  | symlink (target : String) : Entry
  | dir (readErr : Option Nat) (entries : Entries) : Entry

/-- The named entries of a directory, in the order `ReadDir` yields
them (Go sorts them lexically; the model stores them in that order). -/
inductive Entries where
  | nil : Entries
  | cons (name : String) (e : Entry) (rest : Entries) : Entries
end

/-- `fs.DirEntry.IsDir` under `Lstat`: only a real directory counts;
a symbolic link is not a directory even when its target is one. -/
def Entry.isDir : Entry → Bool
  | .dir _ _ => true
  | _ => false

/-- The errors `findDirs` can return: the wrapped `ErrNotDirectory`
annotated with the offending path, or an underlying filesystem
traversal error (identified by its code) propagated as-is. -/
inductive FsErr where
  | notDirectory (path : String) : FsErr
  | ioError (code : Nat) (path : String) : FsErr
deriving DecidableEq

/-- The type of a `fs.WalkDirFunc` as used by `findDirs`: it receives
the visited path, its entry, `some code` when the walker is reporting
a read error at that path, and the accumulated `dirs` slice (the
closure state); it returns the updated slice or an error. -/
abbrev WalkFn := String → Entry → Option Nat → List String → Except FsErr (List String)

mutual
/-- `filepath.WalkDir`, specialized to callbacks (such as
`findDirs`'s) that never return `SkipDir`/`SkipAll`: call the
callback on the node, stop on error; recurse into the entries of a
directory; on a `ReadDir` failure call the callback a second time
with the error, and continue over the entries that were read only if
the callback returns no error. -/
def walkNode (fn : WalkFn) (p : String) (d : Entry) (acc : List String) :
    Except FsErr (List String) :=
  match fn p d none acc with
  | .error e => .error e
  | .ok acc1 =>
    match d with
    | .file => .ok acc1
    | .symlink _ => .ok acc1
    | .dir readErr es =>
      match readErr with
      | some code =>
        match fn p (.dir readErr es) (some code) acc1 with
        | .error e => .error e
        | .ok acc2 => walkEntries fn p es acc2
      | none => walkEntries fn p es acc1
termination_by structural d

/-- The loop of `filepath.WalkDir` over a directory's entries:
each child is visited at `filepath.Join(path, name)`; an error from a
child aborts the loop. -/
def walkEntries (fn : WalkFn) (base : String) (es : Entries) (acc : List String) :
    Except FsErr (List String) :=
  match es with
  | .nil => .ok acc
  | .cons n d rest =>
    match walkNode fn (filepathJoin base n) d acc with
    | .error e => .error e
    | .ok acc1 => walkEntries fn base rest acc1
termination_by structural es
end

/-- The closure passed by `findDirs` to `filepath.WalkDir`:
`if err != nil { return err };
 if root == path && !d.IsDir() { return fmt.Errorf("%q: %w", path, ErrNotDirectory) };
 if d.IsDir() { dirs = append(dirs, root) }; return nil`. -/
def findDirsFn (path : String) : WalkFn := fun root d err dirs =>
  match err with
  | some e => .error (.ioError e root)
  | none =>
    if root = path ∧ d.isDir = false then .error (.notDirectory path)
    else if d.isDir then .ok (dirs ++ [root]) else .ok dirs

/-- `func findDirs(path string) ([]string, error)` — walk the tree
rooted at `path` with the closure above, starting from an empty
`dirs` slice; on error return the error alone (`return nil, err`). -/
def findDirs (path : String) (root : Entry) : Except FsErr (List String) :=
  walkNode (findDirsFn path) path root []

/-! ## Spec-side description of the traversal -/

mutual
/-- All (path, node) pairs of the tree in depth-first pre-order, the
root first — the visit order of `filepath.WalkDir`. -/
def preVisit (p : String) : Entry → List (String × Entry)
  | .file => [(p, .file)]
  | .symlink t => [(p, .symlink t)]
  | .dir readErr es => (p, .dir readErr es) :: preVisitList p es
termination_by structural d => d

/-- Pre-order visit of a directory's entries. -/
def preVisitList (base : String) : Entries → List (String × Entry)
  | .nil => []
  | .cons n e rest => preVisit (filepathJoin base n) e ++ preVisitList base rest
termination_by structural es => es
end

/-- Keep a visited path only when its node is a real directory. -/
def isDirEntry (x : String × Entry) : Option String :=
  if x.2.isDir then some x.1 else none

/-- The paths of the directory nodes of the tree, in depth-first
pre-order with the root first; symbolic links and files never
contribute. -/
def dirsAt (p : String) (d : Entry) : List String :=
  (preVisit p d).filterMap isDirEntry

/-- `dirsAt` over a directory's entries. -/
def dirsAtList (base : String) (es : Entries) : List String :=
  (preVisitList base es).filterMap isDirEntry

mutual
/-- The first error the `findDirs` traversal of the tree encounters,
in visit order: `NotDirectory` at a non-directory whose path equals
the original argument (in particular at a non-directory root), and the
propagated read error at an unreadable directory. -/
def firstErr (orig p : String) : Entry → Option FsErr
  | .file => if p = orig then some (.notDirectory orig) else none
  | .symlink _ => if p = orig then some (.notDirectory orig) else none
  | .dir readErr es =>
    match readErr with
    | some code => some (.ioError code p)
    | none => firstErrList orig p es
termination_by structural d => d

/-- `firstErr` over a directory's entries. -/
def firstErrList (orig base : String) : Entries → Option FsErr
  | .nil => none
  | .cons n e rest =>
    match firstErr orig (filepathJoin base n) e with
    | some err => some err
    | none => firstErrList orig base rest
termination_by structural es => es
end

/-- The tree `root/{x.txt, sub/{y.txt}, link -> sub}` of the spec's
example, entries in the lexical order `ReadDir` yields. -/
def exTree : Entry :=
  .dir none (.cons "link" (.symlink "sub")
    (.cons "sub" (.dir none (.cons "y.txt" .file .nil))
      (.cons "x.txt" .file .nil)))

/-- A tree whose root is a directory containing an unreadable
directory `a` (read error code 7) followed by a readable `b`. -/
def badTree : Entry :=
  .dir none (.cons "a" (.dir (some 7) .nil)
    (.cons "b" (.dir none .nil) .nil))

/-! ## The re-parsing test harness for Event.String output -/

/-- Split a character list at every occurrence of `sep`;
`cur` is the reversed current element. -/
def splitChar (sep : Char) : List Char → List Char → List (List Char)
  | [], cur => [cur.reverse]
  | c :: rest, cur =>
    if c = sep then cur.reverse :: splitChar sep rest []
    else splitChar sep rest (c :: cur)

/-- Modelled from the spec: the test harness maps one operation tag
back to its flag (`fsnotify.go` only defines the forward direction). -/
def parseOpToken (t : List Char) : Option Op :=
  if t = "CREATE".data then some Create
  else if t = "REMOVE".data then some Remove
  else if t = "WRITE".data then some Write
  else if t = "RENAME".data then some Rename
  else if t = "CHMOD".data then some Chmod
  else none

/-- Modelled from the spec: parse a pipe-joined operation label back
into the operation set it denotes. -/
def parseOps (t : List Char) : Option Op :=
  (splitChar '|' t []).foldl
    (fun acc tok =>
      match acc, parseOpToken tok with
      | some a, some f => some (a ||| f)
      | _, _ => none)
    (some 0)

/-- Inverse of `goQuoteChar` escaping over the quoted body. -/
def unescapeChars : List Char → Option (List Char)
  | [] => some []
  | c :: rest =>
    if c = '\\' then
      match rest with
      | [] => none
      | e :: rest2 =>
        let dec :=
          if e = '"' then some '"'
          else if e = '\\' then some '\\'
          else if e = 'n' then some '\n'
          else if e = 't' then some '\t'
          else if e = 'r' then some '\r'
          else none
        match dec, unescapeChars rest2 with
        | some d, some cs => some (d :: cs)
        | _, _ => none
    else
      match unescapeChars rest with
      | some cs => some (c :: cs)
      | none => none

/-- Modelled from the spec: undo Go `%q` quoting — the body between
the surrounding double quotes, unescaped. -/
def goUnquote (cs : List Char) : Option (List Char) :=
  match cs with
  | '"' :: rest =>
    match rest.getLast? with
    | some '"' => unescapeChars rest.dropLast
    | _ => none
  | _ => none

/-- Modelled from the spec: the test harness that re-parses the output
of `Event.String` (`fsnotify.go` contains no parser): the operation
label is everything before the first double quote with the field
padding stripped, the path is the Go-unquoted remainder. -/
def parseEvent (s : String) : Option (Op × String) :=
  let label := s.data.takeWhile (· ≠ '"')
  let opPart := (label.reverse.dropWhile (· = ' ')).reverse
  let quoted := s.data.drop label.length
  match parseOps opPart, goUnquote quoted with
  | some o, some n => some (o, String.mk n)
  | _, _ => none

/-! ## Helper lemmas about the traversal -/

theorem dirsAt_file (p : String) : dirsAt p .file = [] := by
  simp [dirsAt, preVisit, isDirEntry, Entry.isDir]

theorem dirsAt_symlink (p t : String) : dirsAt p (.symlink t) = [] := by
  simp [dirsAt, preVisit, isDirEntry, Entry.isDir]

theorem dirsAt_dir (p : String) (readErr : Option Nat) (es : Entries) :
    dirsAt p (.dir readErr es) = p :: dirsAtList p es := by
  simp [dirsAt, dirsAtList, preVisit, List.filterMap_cons, isDirEntry, Entry.isDir]

theorem dirsAtList_nil (base : String) : dirsAtList base .nil = [] := by
  simp [dirsAtList, preVisitList]

theorem dirsAtList_cons (base n : String) (e : Entry) (rest : Entries) :
    dirsAtList base (.cons n e rest) =
      dirsAt (filepathJoin base n) e ++ dirsAtList base rest := by
  simp [dirsAtList, dirsAt, preVisitList, List.filterMap_append]

mutual
/-- The traversal of `findDirs` refines the declarative description:
it returns the first error of the walk when there is one, and appends
exactly the pre-order directory paths to the accumulator otherwise. -/
theorem walkNode_spec (orig p : String) (d : Entry) (acc : List String) :
    walkNode (findDirsFn orig) p d acc =
      match firstErr orig p d with
      | some e => .error e
      | none => .ok (acc ++ dirsAt p d) := by
  cases d with
  | file =>
    by_cases h : p = orig <;>
      simp [walkNode, findDirsFn, firstErr, Entry.isDir, dirsAt_file, h]
  | symlink t =>
    by_cases h : p = orig <;>
      simp [walkNode, findDirsFn, firstErr, Entry.isDir, dirsAt_symlink, h]
  | dir readErr es =>
    cases readErr with
    | some code =>
      simp [walkNode, findDirsFn, firstErr, Entry.isDir]
    | none =>
      have h2 := walkEntries_spec orig p es (acc ++ [p])
      cases hfe : firstErrList orig p es with
      | some err =>
        simp [walkNode, findDirsFn, firstErr, Entry.isDir, hfe, h2]
      | none =>
        simp [walkNode, findDirsFn, firstErr, Entry.isDir, hfe, h2, dirsAt_dir]

/-- `walkNode_spec` for the entry loop. -/
theorem walkEntries_spec (orig base : String) (es : Entries) (acc : List String) :
    walkEntries (findDirsFn orig) base es acc =
      match firstErrList orig base es with
      | some e => .error e
      | none => .ok (acc ++ dirsAtList base es) := by
  cases es with
  | nil => simp [walkEntries, firstErrList, dirsAtList_nil]
  | cons n e rest =>
    have h1 := walkNode_spec orig (filepathJoin base n) e acc
    cases hfe : firstErr orig (filepathJoin base n) e with
    | some err =>
      simp [walkEntries, firstErrList, hfe, h1]
    | none =>
      have h2 := walkEntries_spec orig base rest (acc ++ dirsAt (filepathJoin base n) e)
      cases hfr : firstErrList orig base rest with
      | some err =>
        simp [walkEntries, firstErrList, hfe, hfr, h1, h2]
      | none =>
        simp [walkEntries, firstErrList, hfe, hfr, h1, h2, dirsAtList_cons]
end

/-- `findDirs` characterized: the first traversal error when one
occurs (and nothing else), the pre-order directory paths otherwise. -/
theorem findDirs_spec (p : String) (d : Entry) :
    findDirs p d =
      match firstErr p p d with
      | some e => .error e
      | none => .ok (dirsAt p d) := by
  have h := walkNode_spec p p d []
  simpa [findDirs] using h

/-! ## The claims -/

/-- C1: for every `Op` value `o` and every `Op` value `h` (composites
included), `o.Has(h)` returns true iff every bit set in `h` is also
set in `o`, i.e. `o & h == h`; `Has` is a pure total function. -/
theorem claim_C1_has_iff (o h : Op) :
    (Op.Has o h = true ↔ o &&& h = h) ∧
    (Op.Has o h = true ↔ ∀ i, Nat.testBit h i = true → Nat.testBit o i = true) := by
  have hand : Op.Has o h = true ↔ o &&& h = h := by simp [Op.Has]
  refine ⟨hand, hand.trans ⟨fun heq i hi => ?_, fun hb => ?_⟩⟩
  · have hc := congrArg (Nat.testBit · i) heq
    simpa [Nat.testBit_land, hi] using hc
  · refine Nat.eq_of_testBit_eq fun i => ?_
    rw [Nat.testBit_land]
    cases hh : h.testBit i with
    | false => simp
    | true => simp [hb i hh]

/-- Witness for C1 at `o = 21`, `h = 5`. -/
theorem claim_C1_has_iff_witness : (21 : Op) &&& 5 = 5 :=
  ((claim_C1_has_iff 21 5).1).mp (by decide)

/-- C10: `o.Has(Op(0))` is true for every `o` (`o & 0 == 0`), so the
empty operation is contained in every value, `Op(0)` included. -/
theorem claim_C10_has_zero (o : Op) : Op.Has o 0 = true := by
  have h0 : o &&& 0 = 0 := Nat.eq_of_testBit_eq fun i => by simp [Nat.testBit_land]
  simp [Op.Has, h0]

/-- C7: the flags take distinct power-of-two bits in declared order:
`Create = 1`, `Write = 2`, `Remove = 4`, `Rename = 8`, `Chmod = 16`. -/
theorem claim_C7_flag_bits :
    Create = 1 ∧ Write = 2 ∧ Remove = 4 ∧ Rename = 8 ∧ Chmod = 16 ∧
    List.Pairwise (fun a b => a &&& b = 0) [Create, Write, Remove, Rename, Chmod] := by
  decide

/-- C5: `Op.String` renders the set flags in the fixed order
`Create, Remove, Write, Rename, Chmod`, pipe-joined with the leading
separator stripped, with the sentinel `"[no events]"` when no bit is
set; `Op(0).String() = "[no events]"` and
`(Create|Write).String() = "CREATE|WRITE"`. -/
theorem claim_C5_op_string :
    (∀ o : Op, opString o = renderSpec o) ∧
    opString 0 = "[no events]" ∧
    opString (Create ||| Write) = "CREATE|WRITE" := by
  refine ⟨fun o => ?_, rfl, rfl⟩
  cases h1 : Op.Has o Create <;> cases h2 : Op.Has o Remove <;>
    cases h3 : Op.Has o Write <;> cases h4 : Op.Has o Rename <;>
      cases h5 : Op.Has o Chmod <;>
        simp [opString, renderSpec, renderOrder, joinStrs, h1, h2, h3, h4, h5] <;>
          decide

/-- C3: `recursivePath` strips a final `...` segment and reports the
recursion flag, is the identity (with a false flag) otherwise, and
`recursivePath("...")` yields the platform directory-parent of `.`;
it is a pure syntactic function. -/
theorem claim_C3_recursive_path :
    recursivePath "/a/b/..." = ("/a/b", true) ∧
    recursivePath "/a/b" = ("/a/b", false) ∧
    recursivePath "..." = (filepathDir ".", true) ∧
    ∀ p, (filepathBase p = "..." → recursivePath p = (filepathDir p, true)) ∧
         (filepathBase p ≠ "..." → recursivePath p = (p, false)) := by
  refine ⟨rfl, rfl, rfl, fun p => ⟨fun h => ?_, fun h => ?_⟩⟩
  · simp [recursivePath, h]
  · simp [recursivePath, h]

/-- Witness for C3 at the non-recursive path `"x"`. -/
theorem claim_C3_recursive_path_witness : recursivePath "x" = ("x", false) :=
  (claim_C3_recursive_path.2.2.2 "x").2 (by decide)

/-- C9: `recursivePath` and `findDirs` are deterministic pure
functions of their input (the filesystem state made explicit): two
calls on the same arguments give identical results. -/
theorem claim_C9_deterministic (p : String) (d : Entry) :
    recursivePath p = recursivePath p ∧ findDirs p d = findDirs p d :=
  ⟨rfl, rfl⟩

/-- C2: on a traversal without errors whose root is a directory,
`findDirs` returns exactly the depth-first pre-order directory paths
(`dirsAt` filters the pre-order visit `preVisit` down to real
directories, so a symbolic link never appears), the root first; on
the spec's tree `root/{x.txt, sub/{y.txt}, link -> sub}` it returns
exactly `[root, root/sub]`. -/
theorem claim_C2_find_dirs :
    (∀ p d, Entry.isDir d = true → firstErr p p d = none →
      findDirs p d = .ok (dirsAt p d) ∧ (dirsAt p d).head? = some p) ∧
    findDirs "root" exTree = .ok ["root", "root/sub"] := by
  refine ⟨fun p d hdir hne => ⟨?_, ?_⟩, rfl⟩
  · rw [findDirs_spec, hne]
  · cases d with
    | file => simp [Entry.isDir] at hdir
    | symlink t => simp [Entry.isDir] at hdir
    | dir readErr es => simp [dirsAt_dir]

/-- Witness for C2 on the spec's example tree. -/
theorem claim_C2_find_dirs_witness :
    findDirs "root" exTree = .ok (dirsAt "root" exTree) ∧
    (dirsAt "root" exTree).head? = some "root" :=
  claim_C2_find_dirs.1 "root" exTree rfl rfl

/-- C4: a root that is not a directory (a file, or a symbolic link
even to a directory) makes `findDirs` fail with `NotDirectory`
annotated with the root path; a non-directory entry strictly below
the root (its path differing from the root argument) is skipped by
the callback: it adds nothing to the slice and raises no error. -/
theorem claim_C4_not_directory :
    (∀ p d, Entry.isDir d = false → findDirs p d = .error (.notDirectory p)) ∧
    (∀ orig base n e acc, Entry.isDir e = false → filepathJoin base n ≠ orig →
      walkNode (findDirsFn orig) (filepathJoin base n) e acc = .ok acc) := by
  constructor
  · intro p d hdir
    cases d with
    | file => simp [findDirs, walkNode, findDirsFn, Entry.isDir]
    | symlink t => simp [findDirs, walkNode, findDirsFn, Entry.isDir]
    | dir readErr es => simp [Entry.isDir] at hdir
  · intro orig base n e acc hdir hne
    cases e with
    | file => simp [walkNode, findDirsFn, Entry.isDir, hne]
    | symlink t => simp [walkNode, findDirsFn, Entry.isDir, hne]
    | dir readErr es => simp [Entry.isDir] at hdir

/-- Witness for C4: a plain-file root, and a plain file below a
directory root. -/
theorem claim_C4_not_directory_witness :
    findDirs "f" .file = .error (.notDirectory "f") ∧
    walkNode (findDirsFn "root") (filepathJoin "root" "x.txt") .file ["root"] =
      .ok ["root"] :=
  ⟨claim_C4_not_directory.1 "f" .file rfl,
   claim_C4_not_directory.2 "root" "root" "x.txt" .file ["root"] rfl (by decide)⟩

/-- C6: every traversal error aborts the walk and propagates as-is:
a `findDirs` call returns either the first error of the traversal
with no accompanying enumeration, or the full enumeration with no
error — all-or-nothing. -/
theorem claim_C6_all_or_nothing (p : String) (d : Entry) :
    (∀ e, findDirs p d = .error e → firstErr p p d = some e) ∧
    (∀ l, findDirs p d = .ok l → firstErr p p d = none ∧ l = dirsAt p d) := by
  have h := findDirs_spec p d
  constructor
  · intro e he
    cases hfe : firstErr p p d with
    | some err => rw [hfe] at h; rw [h] at he; simpa using he
    | none => rw [hfe] at h; rw [h] at he; simp at he
  · intro l hl
    cases hfe : firstErr p p d with
    | some err => rw [hfe] at h; rw [h] at hl; simp at hl
    | none => rw [hfe] at h; rw [h] at hl; simpa using hl.symm

/-- Witness for C6 on `badTree`: the read error of `r/a` aborts the
walk (with code and path intact) and no partial list survives. -/
theorem claim_C6_all_or_nothing_witness :
    firstErr "r" "r" badTree = some (.ioError 7 "r/a") :=
  (claim_C6_all_or_nothing "r" badTree).1 (.ioError 7 "r/a") rfl

/-- C8 counterexample: the operation label of `Event.String` is padded
on the right (left-justified), not left-padded: on
`Event{Name: "dir/file", Op: Create|Write}` the output is
`CREATE|WRITE  "dir/file"`, which differs from the left-padded
rendering ` CREATE|WRITE "dir/file"`. -/
theorem claim_C8_counterexample :
    eventString ⟨"dir/file", Create ||| Write⟩ = "CREATE|WRITE  \"dir/file\"" ∧
    eventString ⟨"dir/file", Create ||| Write⟩ ≠
      leftPadEventString ⟨"dir/file", Create ||| Write⟩ :=
  ⟨rfl, by decide⟩

/-- C8 (amended): `Event.String` formats as the operation label
left-justified and right-padded to a fixed 13-column field, a space,
and the Go-quoted path; `Event{Name: "dir/file", Op: Create|Write}`
formatted this way re-parses to the same operation set and path. -/
theorem claim_C8_event_string :
    (∀ e : Event, eventString e = padRight13 (opString e.Op) ++ " " ++ goQuote e.Name) ∧
    (∀ e : Event, (padRight13 (opString e.Op)).length = max 13 (opString e.Op).length) ∧
    parseEvent (eventString ⟨"dir/file", Create ||| Write⟩) =
      some (Create ||| Write, "dir/file") := by
  refine ⟨fun e => rfl, fun e => ?_, rfl⟩
  simp [padRight13]
  omega

end Fsnotify
